import Mathlib

/-!
Verification of the terminal-chat P2P application (crypto engine, discovery
service, outbound connection manager, inbound listener) against its
natural-language specification.  The TypeScript sources are shallowly
embedded: pure computations become Lean functions, the event-driven state
(peer registries, connection maps, timers) becomes explicit state passing,
and JavaScript exceptions become `Except` values that the embedded
try/catch handlers consume.
-/

namespace TChat

/-! ## Hex encoding helpers (model of Buffer hex encode/decode in crypto.ts) -/

/-- Hex digit characters, index 0..15.  Out-of-range indices (never produced
by the code, which always passes a value reduced mod 16) map to a dummy. -/
def hexDigitA : Nat → Char
  | 0 => '0'
  | 1 => '1'
  | 2 => '2'
  | 3 => '3'
  | 4 => '4'
  | 5 => '5'
  | 6 => '6'
  | 7 => '7'
  | 8 => '8'
  | 9 => '9'
  | 10 => 'a'
  | 11 => 'b'
  | 12 => 'c'
  | 13 => 'd'
  | 14 => 'e'
  | 15 => 'f'
  | _ => '0'

def hexDigit (m : Nat) : Char := hexDigitA (m % 16)

def hexDigitVal (c : Char) : Nat :=
  if '0' ≤ c ∧ c ≤ '9' then c.toNat - 48
  else if 'a' ≤ c ∧ c ≤ 'f' then c.toNat - 87
  else 0

def isHexDigit (c : Char) : Bool :=
  (decide ('0' ≤ c) && decide (c ≤ '9')) || (decide ('a' ≤ c) && decide (c ≤ 'f'))

/-- Lower-case hex encoding of a byte list, two digits per byte
(Buffer.toString with hex in crypto.ts). -/
def bytesToHex : List Nat → List Char
  | [] => []
  | b :: bs => hexDigit (b / 16) :: hexDigit (b % 16) :: bytesToHex bs

/-- Lenient hex decoding: consumes digit pairs, stops at the first invalid
pair and drops a trailing odd nibble, as Buffer.from with hex does. -/
def hexDecodeLenient : List Char → List Nat
  | c1 :: c2 :: rest =>
    if isHexDigit c1 && isHexDigit c2 then
      (hexDigitVal c1 * 16 + hexDigitVal c2) :: hexDecodeLenient rest
    else []
  | _ => []

theorem hexDigitA_val : ∀ m, m < 16 → hexDigitVal (hexDigitA m) = m := by decide

theorem hexDigitA_isHex : ∀ m, m < 16 → isHexDigit (hexDigitA m) = true := by decide

theorem hexDigitA_ne_colon : ∀ m, m < 16 → hexDigitA m ≠ ':' := by decide

theorem hexDigitA_ne_g : ∀ m, m < 16 → hexDigitA m ≠ 'g' := by decide

theorem hexDigit_val (m : Nat) : hexDigitVal (hexDigit m) = m % 16 :=
  hexDigitA_val (m % 16) (Nat.mod_lt m (by norm_num))

theorem hexDigit_isHex (m : Nat) : isHexDigit (hexDigit m) = true :=
  hexDigitA_isHex (m % 16) (Nat.mod_lt m (by norm_num))

theorem hexDigit_ne_colon (m : Nat) : hexDigit m ≠ ':' :=
  hexDigitA_ne_colon (m % 16) (Nat.mod_lt m (by norm_num))

theorem hexDigit_ne_g (m : Nat) : hexDigit m ≠ 'g' :=
  hexDigitA_ne_g (m % 16) (Nat.mod_lt m (by norm_num))

theorem hexDecodeLenient_bytesToHex (bs : List Nat) (h : ∀ b ∈ bs, b < 256) :
    hexDecodeLenient (bytesToHex bs) = bs := by
  induction bs with
  | nil => rfl
  | cons b bs ih =>
    have hb : b < 256 := h b (List.mem_cons_self b bs)
    have hdiv : b / 16 < 16 := by omega
    simp only [bytesToHex, hexDecodeLenient, hexDigit_isHex, Bool.and_self, if_pos,
      hexDigit_val]
    rw [ih (fun x hx => h x (List.mem_cons_of_mem b hx))]
    have hm : b / 16 % 16 = b / 16 := Nat.mod_eq_of_lt hdiv
    have : b / 16 % 16 * 16 + b % 16 % 16 = b := by omega
    rw [this]

theorem colon_not_mem_bytesToHex (bs : List Nat) : ':' ∉ bytesToHex bs := by
  induction bs with
  | nil => simp [bytesToHex]
  | cons b bs ih =>
    simp only [bytesToHex, List.mem_cons, not_or]
    exact ⟨fun h => hexDigit_ne_colon _ h.symm, fun h => hexDigit_ne_colon _ h.symm, ih⟩

theorem bytesToHex_ne_nil (bs : List Nat) (h : bs ≠ []) : bytesToHex bs ≠ [] := by
  cases bs with
  | nil => exact absurd rfl h
  | cons b bs => simp [bytesToHex]

/-! ## Fixed-width hex words (used by the cipher model below) -/

/-- Six-digit (24-bit) hex rendering of a natural number below 16^6. -/
def hex6Chars (n : Nat) : List Char :=
  [hexDigit (n / 1048576), hexDigit (n / 65536), hexDigit (n / 4096),
   hexDigit (n / 256), hexDigit (n / 16), hexDigit n]

/-- Value of a big-endian hex digit string. -/
def hexVal (l : List Char) : Nat := l.foldl (fun acc c => acc * 16 + hexDigitVal c) 0

theorem hexVal_hex6Chars (n : Nat) (h : n < 16777216) : hexVal (hex6Chars n) = n := by
  simp only [hex6Chars, hexVal, List.foldl, hexDigit_val]
  omega

theorem hex6Chars_inj {m n : Nat} (hm : m < 16777216) (hn : n < 16777216)
    (h : hex6Chars m = hex6Chars n) : m = n := by
  have := hexVal_hex6Chars m hm
  rw [h, hexVal_hex6Chars n hn] at this
  omega

theorem colon_not_mem_hex6Chars (n : Nat) : ':' ∉ hex6Chars n := by
  simp only [hex6Chars, List.mem_cons, not_or]
  refine ⟨?_, ?_, ?_, ?_, ?_, ?_, by simp⟩ <;> exact fun h => hexDigit_ne_colon _ h.symm

theorem g_not_mem_hex6Chars (n : Nat) : 'g' ∉ hex6Chars n := by
  simp only [hex6Chars, List.mem_cons, not_or]
  refine ⟨?_, ?_, ?_, ?_, ?_, ?_, by simp⟩ <;> exact fun h => hexDigit_ne_g _ h.symm

/-! ## Character-level split (model of JavaScript String.prototype.split) -/

/-- Split a character list at every occurrence of the separator, as
JavaScript string split does (the empty string splits to one empty piece). -/
def splitOnChar (sep : Char) : List Char → List (List Char)
  | [] => [[]]
  | c :: cs =>
    if c = sep then [] :: splitOnChar sep cs
    else
      match splitOnChar sep cs with
      | [] => [[c]]
      | h :: t => (c :: h) :: t

theorem splitOnChar_ne_nil (sep : Char) (l : List Char) : splitOnChar sep l ≠ [] := by
  cases l with
  | nil => simp [splitOnChar]
  | cons c cs =>
    simp only [splitOnChar]
    by_cases h : c = sep
    · simp [h]
    · simp only [h, if_false]
      cases splitOnChar sep cs <;> simp

theorem splitOnChar_not_mem (sep : Char) (l : List Char) (h : sep ∉ l) :
    splitOnChar sep l = [l] := by
  induction l with
  | nil => rfl
  | cons c cs ih =>
    simp only [List.mem_cons, not_or] at h
    simp only [splitOnChar, if_neg (fun hc : c = sep => h.1 hc.symm), ih h.2]

theorem splitOnChar_append (sep : Char) (a b : List Char) (ha : sep ∉ a) :
    splitOnChar sep (a ++ sep :: b) = a :: splitOnChar sep b := by
  induction a with
  | nil => simp [splitOnChar]
  | cons c cs ih =>
    simp only [List.mem_cons, not_or] at ha
    simp only [List.cons_append, splitOnChar, if_neg (fun hc : c = sep => ha.1 hc.symm),
      List.append_eq, ih ha.2]

/-! ## Text payload hex transport (model of the cipher stream content) -/

/-- Encode a character list as fixed-width hex words, one per character. -/
def strToHex : List Char → List Char
  | [] => []
  | c :: cs => hex6Chars c.toNat ++ strToHex cs

/-- Decode the fixed-width hex word stream back to characters; any stream
whose length is not a multiple of the width is rejected. -/
def hexToStr : List Char → Option (List Char)
  | [] => some []
  | c1 :: c2 :: c3 :: c4 :: c5 :: c6 :: rest =>
    match hexToStr rest with
    | some s => some (Char.ofNat (hexVal [c1, c2, c3, c4, c5, c6]) :: s)
    | none => none
  | _ => none

theorem char_toNat_lt (c : Char) : c.toNat < 16777216 := by
  have h := c.valid
  rcases h with h | ⟨h1, h2⟩
  · have : c.toNat < 55296 := h
    omega
  · have : c.toNat < 1114112 := h2
    omega

theorem colon_not_mem_strToHex (l : List Char) : ':' ∉ strToHex l := by
  induction l with
  | nil => simp [strToHex]
  | cons c cs ih =>
    simp only [strToHex, List.mem_append, not_or]
    exact ⟨colon_not_mem_hex6Chars _, ih⟩

theorem g_not_mem_strToHex (l : List Char) : 'g' ∉ strToHex l := by
  induction l with
  | nil => simp [strToHex]
  | cons c cs ih =>
    simp only [strToHex, List.mem_append, not_or]
    exact ⟨g_not_mem_hex6Chars _, ih⟩

theorem hexToStr_strToHex (l : List Char) : hexToStr (strToHex l) = some l := by
  induction l with
  | nil => rfl
  | cons c cs ih =>
    have hv : hexVal (hex6Chars c.toNat) = c.toNat :=
      hexVal_hex6Chars c.toNat (char_toNat_lt c)
    simp only [strToHex, hex6Chars, List.cons_append, List.nil_append, hexToStr,
      List.append_eq, ih]
    have : hexVal [hexDigit (c.toNat / 1048576), hexDigit (c.toNat / 65536),
        hexDigit (c.toNat / 4096), hexDigit (c.toNat / 256), hexDigit (c.toNat / 16),
        hexDigit c.toNat] = c.toNat := hv
    rw [this, Char.ofNat_toNat]

/-! ## Crypto engine (crypto.ts)

The TypeScript `Crypto` class calls four Node library primitives that are not
part of this repository: `createECDH('prime256v1')`, `createHash('sha256')`,
`createCipheriv('aes-256-cbc')` and `createDecipheriv('aes-256-cbc')`.  They
are modelled below; everything else (`encrypt`, `decrypt`, the blob encoding,
the try/catch handling) is translated directly from crypto.ts. -/

/-- Modelled from the spec: the order of the cyclic elliptic-curve group used
for Diffie-Hellman ("elliptic-curve Diffie-Hellman shared secret").  The
prime256v1 group is cyclic of prime order; the model uses a small prime. -/
def curveOrder : Nat := 65537

theorem curveOrder_prime : Nat.Prime curveOrder := by norm_num [curveOrder]

/-- Modelled from the spec: scalar multiple of the group generator, written
additively, so a point is its discrete logarithm times a fixed generator
residue.  `pubOf d` is the public key of the private scalar `d`
("generates a fresh elliptic-curve key pair"). -/
def pubOf (d : Nat) : Nat := d * 7 % curveOrder

/-- Modelled from the spec: the ECDH shared-secret computation
`ecdh.computeSecret(otherPublicKey)` — the private scalar acting on the
other party's public point. -/
def computeSecret (d q : Nat) : Nat := d * q % curveOrder

/-- Modelled from the spec: the SHA-256 key-derivation step
"hashes it (cryptographic digest) to produce a uniform symmetric key";
modelled as an injective map on the shared-secret domain. -/
def sha256Model (n : Nat) : Nat := n

/-- Modelled from the spec: the AES-256-CBC encryption stream
("encrypts with a block cipher in CBC mode").  The model is a keyed
bijection producing a delimiter-free character stream: the key rendered as
a fixed-width hex word, a marker, then the hex-transported payload. -/
def encryptCBC (key : Nat) (message : List Char) : List Char :=
  hex6Chars key ++ 'g' :: strToHex message

/-- Modelled from the spec: the AES-256-CBC decryption stream; fails (the
library throws, e.g. a padding error) whenever the key disagrees with the
one the stream was produced under, or the stream is not well formed. -/
def decryptCBC (key : Nat) (ct : List Char) : Option (List Char) :=
  match splitOnChar 'g' ct with
  | [kh, mh] => if kh = hex6Chars key then hexToStr mh else none
  | _ => none

/-- State of the `Crypto` class: the ECDH private scalar generated in the
constructor by `generateKeys()`. -/
structure Crypto where
  priv : Nat

/-- The `publicKey` field: the compressed public key exposed for
advertisement. -/
def Crypto.publicKey (c : Crypto) : Nat := pubOf c.priv

/-- `Crypto.encrypt`: derive the shared secret with the recipient's public
key, hash it into the symmetric key, encrypt, and return the blob
`iv hex ++ ':' ++ ciphertext hex`.  The fresh random `iv` from
`randomBytes(16)` is passed in as an explicit byte list. -/
def Crypto.encrypt (c : Crypto) (message : String) (recipientPublicKey : Nat)
    (iv : List Nat) : String :=
  let sharedSecret := computeSecret c.priv recipientPublicKey
  let key := sha256Model sharedSecret
  String.mk (bytesToHex iv ++ ':' :: encryptCBC key message.data)

/-- Failure paths of the `decrypt` try block. `formatError` is the explicit
`throw new Error('Invalid encrypted message format')`; `badIv` is
`createDecipheriv` rejecting an iv that is not 16 bytes; `cipherError` is a
cipher-level failure (wrong key / corrupted ciphertext). -/
inductive DecErr
  | formatError
  | badIv
  | cipherError
deriving DecidableEq

/-- JavaScript array destructuring `const [a, b] = xs`: the first element
(JS split never yields an empty array, so the first piece always exists)
and optionally the second. -/
def destructure2 (l : List (List Char)) : List Char × Option (List Char) :=
  match l with
  | [] => ([], none)
  | a :: rest => (a, rest.head?)

/-- The body of the `decrypt` try block, with each `throw` made explicit:
split the blob on the delimiter, reject a missing/empty iv or ciphertext
component, hex-decode the iv, re-derive the shared key, and decipher. -/
def Crypto.decryptE (c : Crypto) (encryptedMessage : String)
    (senderPublicKey : Nat) : Except DecErr String :=
  let parts := splitOnChar ':' encryptedMessage.data
  let pieces := destructure2 parts
  match pieces.2 with
  | none => .error .formatError
  | some encrypted =>
    if pieces.1 = [] ∨ encrypted = [] then .error .formatError
    else
      let iv := hexDecodeLenient pieces.1
      let sharedSecret := computeSecret c.priv senderPublicKey
      let key := sha256Model sharedSecret
      if iv.length = 16 then
        match decryptCBC key encrypted with
        | some m => .ok (String.mk m)
        | none => .error .cipherError
      else .error .badIv

/-- The sentinel string `decrypt` returns from its catch handler. -/
def Crypto.failureSentinel : String := "[Unable to decrypt message]"

/-- `Crypto.decrypt`: the try block, with every failure caught by the
surrounding catch and converted to the sentinel string. -/
def Crypto.decrypt (c : Crypto) (encryptedMessage : String)
    (senderPublicKey : Nat) : String :=
  match c.decryptE encryptedMessage senderPublicKey with
  | .ok m => m
  | .error _ => Crypto.failureSentinel

theorem computeSecret_lt (d q : Nat) : computeSecret d q < curveOrder :=
  Nat.mod_lt _ (by norm_num [curveOrder])

theorem computeSecret_comm_pub (a b : Nat) :
    computeSecret a (pubOf b) = computeSecret b (pubOf a) := by
  simp only [computeSecret, pubOf, Nat.mul_mod_left]
  conv_lhs => rw [Nat.mul_mod, Nat.mod_mod_of_dvd _ (dvd_refl curveOrder)]
  conv_rhs => rw [Nat.mul_mod, Nat.mod_mod_of_dvd _ (dvd_refl curveOrder)]
  rw [← Nat.mul_mod, ← Nat.mul_mod]
  ring_nf

theorem colon_not_mem_encryptCBC (key : Nat) (m : List Char) :
    ':' ∉ encryptCBC key m := by
  simp only [encryptCBC, List.mem_append, List.mem_cons, not_or]
  exact ⟨colon_not_mem_hex6Chars key, by decide, colon_not_mem_strToHex m⟩

theorem encryptCBC_ne_nil (key : Nat) (m : List Char) : encryptCBC key m ≠ [] := by
  simp [encryptCBC, hex6Chars]

theorem decryptCBC_encryptCBC (key : Nat) (m : List Char) :
    decryptCBC key (encryptCBC key m) = some m := by
  unfold decryptCBC encryptCBC
  rw [splitOnChar_append 'g' _ _ (g_not_mem_hex6Chars key),
    splitOnChar_not_mem 'g' _ (g_not_mem_strToHex m)]
  simp [hexToStr_strToHex]

theorem decryptCBC_wrong_key (key key2 : Nat) (m : List Char)
    (hk : key < 16777216) (hk2 : key2 < 16777216) (hne : key2 ≠ key) :
    decryptCBC key2 (encryptCBC key m) = none := by
  unfold decryptCBC encryptCBC
  rw [splitOnChar_append 'g' _ _ (g_not_mem_hex6Chars key),
    splitOnChar_not_mem 'g' _ (g_not_mem_strToHex m)]
  simp only []
  rw [if_neg (fun h => hne (hex6Chars_inj hk hk2 h).symm)]

/-- Splitting the encrypted blob recovers the iv hex and the cipher stream. -/
theorem splitOnChar_blob (iv : List Nat) (key : Nat) (m : List Char) :
    splitOnChar ':' (bytesToHex iv ++ ':' :: encryptCBC key m) =
      [bytesToHex iv, encryptCBC key m] := by
  rw [splitOnChar_append ':' _ _ (colon_not_mem_bytesToHex iv),
    splitOnChar_not_mem ':' _ (colon_not_mem_encryptCBC key m)]

/-- Decryption at the other end of the pair reaches the cipher with the same
symmetric key and succeeds. -/
theorem decryptE_encrypt (a b : Nat) (message : String) (iv : List Nat)
    (hlen : iv.length = 16) (hbytes : ∀ x ∈ iv, x < 256) :
    Crypto.decryptE ⟨b⟩ (Crypto.encrypt ⟨a⟩ message (pubOf b) iv) (pubOf a) =
      .ok message := by
  have hiv_ne : iv ≠ [] := by intro h; rw [h] at hlen; simp at hlen
  unfold Crypto.decryptE Crypto.encrypt
  simp only [sha256Model]
  rw [splitOnChar_blob]
  simp only [destructure2, List.head?]
  rw [if_neg (by
    simp only [not_or]
    exact ⟨bytesToHex_ne_nil iv hiv_ne, encryptCBC_ne_nil _ _⟩)]
  have hdec : hexDecodeLenient (bytesToHex iv) = iv := hexDecodeLenient_bytesToHex iv hbytes
  simp only [hdec, hlen, eq_self_iff_true, if_true]
  rw [computeSecret_comm_pub b a, decryptCBC_encryptCBC]

/-- Claim C1 (round-trip and wrong-key halves).  `a`, `b` are the two
private scalars; `unrelatedKey` is any public key other than A's; `iv` is
the fresh 16-byte initialization vector drawn inside `encrypt`. -/
theorem c1_roundtrip_and_unrelated_key (a b unrelatedKey : Nat) (message : String)
    (iv : List Nat) (hlen : iv.length = 16) (hbytes : ∀ x ∈ iv, x < 256)
    (hb : b % curveOrder ≠ 0) (hC : unrelatedKey % curveOrder ≠ pubOf a) :
    Crypto.decrypt ⟨b⟩ (Crypto.encrypt ⟨a⟩ message (pubOf b) iv) (pubOf a) = message
    ∧ Crypto.decrypt ⟨b⟩ (Crypto.encrypt ⟨a⟩ message (pubOf b) iv) unrelatedKey =
        Crypto.failureSentinel := by
  constructor
  · unfold Crypto.decrypt
    rw [decryptE_encrypt a b message iv hlen hbytes]
  · have hiv_ne : iv ≠ [] := by intro h; rw [h] at hlen; simp at hlen
    have hkeys : computeSecret b unrelatedKey ≠ computeSecret a (pubOf b) := by
      rw [computeSecret_comm_pub a b]
      intro h
      have hmod : b * unrelatedKey ≡ b * pubOf a [MOD curveOrder] := h
      have hcop : Nat.gcd curveOrder b = 1 :=
        (Nat.Prime.coprime_iff_not_dvd curveOrder_prime).2
          (fun hdvd => hb (Nat.dvd_iff_mod_eq_zero.1 hdvd))
      have := Nat.ModEq.cancel_left_of_coprime hcop hmod
      have hlt : pubOf a < curveOrder := Nat.mod_lt _ (by norm_num [curveOrder])
      have : unrelatedKey % curveOrder = pubOf a % curveOrder := this
      rw [Nat.mod_eq_of_lt hlt] at this
      exact hC this
    unfold Crypto.decrypt Crypto.decryptE Crypto.encrypt
    simp only [sha256Model]
    rw [splitOnChar_blob]
    simp only [destructure2, List.head?]
    rw [if_neg (by
      simp only [not_or]
      exact ⟨bytesToHex_ne_nil iv hiv_ne, encryptCBC_ne_nil _ _⟩)]
    have hdec : hexDecodeLenient (bytesToHex iv) = iv :=
      hexDecodeLenient_bytesToHex iv hbytes
    simp only [hdec, hlen, eq_self_iff_true, if_true]
    rw [decryptCBC_wrong_key _ _ _
      (lt_trans (computeSecret_lt a (pubOf b)) (by norm_num [curveOrder]))
      (lt_trans (computeSecret_lt b unrelatedKey) (by norm_num [curveOrder]))
      hkeys]

theorem c1_witness :
    ((List.replicate 16 7 : List Nat).length = 16
      ∧ (∀ x ∈ (List.replicate 16 7 : List Nat), x < 256)
      ∧ (4 : Nat) % curveOrder ≠ 0
      ∧ (1 : Nat) % curveOrder ≠ pubOf 3)
    ∧ (Crypto.decrypt ⟨4⟩ (Crypto.encrypt ⟨3⟩ "hi:there" (pubOf 4)
          (List.replicate 16 7)) (pubOf 3) = "hi:there"
      ∧ Crypto.decrypt ⟨4⟩ (Crypto.encrypt ⟨3⟩ "hi:there" (pubOf 4)
          (List.replicate 16 7)) 1 = Crypto.failureSentinel) :=
  ⟨⟨by decide, by decide, by decide, by decide⟩,
    c1_roundtrip_and_unrelated_key 3 4 1 "hi:there" (List.replicate 16 7)
      (by decide) (by decide) (by decide) (by decide)⟩

/-- The format test the decrypt try block performs before touching the
cipher: JS destructuring of the split followed by the falsy test
`!ivHex || !encrypted` (a missing or empty iv or ciphertext component). -/
def blobFormatBad (blob : String) : Prop :=
  (destructure2 (splitOnChar ':' blob.data)).2 = none
  ∨ (destructure2 (splitOnChar ':' blob.data)).1 = []
  ∨ (destructure2 (splitOnChar ':' blob.data)).2 = some []

/-- Claim C3 counterexample: on a blob with no delimiter the internal format
error is raised and immediately caught by decrypt's own catch handler, so
the caller receives the same sentinel string as for a cipher-level failure
— no FormatError propagates out of `decrypt`. -/
theorem c3_counterexample :
    Crypto.decryptE ⟨2⟩ "deadbeef" 3 = .error .formatError
    ∧ Crypto.decrypt ⟨2⟩ "deadbeef" 3 = Crypto.failureSentinel := ⟨rfl, rfl⟩

/-- Claim C3 (amended): a blob whose delimiter/iv/ciphertext component is
absent or empty makes the try block fail with the internal format error,
and `decrypt` converts that failure — like every other failure — into the
sentinel string instead of propagating it. -/
theorem c3_format_failure_yields_sentinel (c : Crypto) (senderPublicKey : Nat)
    (blob : String) (h : blobFormatBad blob) :
    Crypto.decryptE c blob senderPublicKey = .error .formatError
    ∧ Crypto.decrypt c blob senderPublicKey = Crypto.failureSentinel := by
  unfold blobFormatBad at h
  have step : Crypto.decryptE c blob senderPublicKey = .error .formatError := by
    unfold Crypto.decryptE
    rcases hp : (destructure2 (splitOnChar ':' blob.data)).2 with _ | enc
    · simp [hp]
    · rcases h with h1 | h2 | h3
      · rw [hp] at h1; exact absurd h1 (by simp)
      · simp [hp, h2]
      · rw [hp] at h3
        have henc : enc = [] := by injection h3
        simp [hp, henc]
  refine ⟨step, ?_⟩
  unfold Crypto.decrypt
  rw [step]

theorem c3_format_failure_witness :
    blobFormatBad "cafe"
    ∧ Crypto.decryptE ⟨5⟩ "cafe" 8 = .error .formatError
    ∧ Crypto.decrypt ⟨5⟩ "cafe" 8 = Crypto.failureSentinel :=
  ⟨Or.inl rfl,
    (c3_format_failure_yields_sentinel ⟨5⟩ 8 "cafe" (Or.inl rfl)).1,
    (c3_format_failure_yields_sentinel ⟨5⟩ 8 "cafe" (Or.inl rfl)).2⟩

/-! ## Discovery service (discovery.ts)

The peer registry `private peers: Map<string, Peer>` is embedded as an
insertion-ordered association list, with `Map.set` as an in-place update
(append for a fresh key), matching JavaScript Map iteration order. -/

def setEntry {α : Type} (k : String) (v : α) : List (String × α) → List (String × α)
  | [] => [(k, v)]
  | (k', v') :: t => if k' = k then (k, v) :: t else (k', v') :: setEntry k v t

def lookupEntry {α : Type} (k : String) : List (String × α) → Option α
  | [] => none
  | (k', v') :: t => if k' = k then some v' else lookupEntry k t

def containsKey {α : Type} (k : String) (l : List (String × α)) : Bool :=
  (lookupEntry k l).isSome

theorem lookupEntry_setEntry_self {α : Type} (k : String) (v : α)
    (l : List (String × α)) : lookupEntry k (setEntry k v l) = some v := by
  induction l with
  | nil => simp [setEntry, lookupEntry]
  | cons e t ih =>
    obtain ⟨k', v'⟩ := e
    by_cases h : k' = k
    · simp [setEntry, lookupEntry, h]
    · simp [setEntry, lookupEntry, h, ih]

theorem mem_setEntry {α : Type} {e : String × α} {k : String} {v : α}
    {l : List (String × α)} (h : e ∈ setEntry k v l) : e = (k, v) ∨ e ∈ l := by
  induction l with
  | nil => simpa [setEntry] using h
  | cons f t ih =>
    obtain ⟨k', v'⟩ := f
    by_cases hk : k' = k
    · simp only [setEntry, if_pos hk, List.mem_cons] at h
      rcases h with h | h
      · exact Or.inl h
      · exact Or.inr (List.mem_cons_of_mem _ h)
    · simp only [setEntry, if_neg hk, List.mem_cons] at h
      rcases h with h | h
      · exact Or.inr (h ▸ List.mem_cons_self _ _)
      · rcases ih h with h | h
        · exact Or.inl h
        · exact Or.inr (List.mem_cons_of_mem _ h)

/-- The Peer record of discovery.ts. -/
structure Peer where
  id : String
  username : String
  ip : String
  port : Nat
  publicKey : String
  lastSeen : Nat
deriving DecidableEq

/-- The two discovery datagram kinds. -/
inductive MsgType
  | announce
  | query
deriving DecidableEq

/-- A parsed DiscoveryMessage datagram. -/
structure DiscoveryMessage where
  type : MsgType
  id : String
  username : String
  ip : String
  port : Nat
  publicKey : String
  timestamp : Nat
deriving DecidableEq

/-- Result of one `handleMessage` call: the updated registry, the
peer-found emission if any, and the delay of the jittered reply announce
`setTimeout` if one was created. -/
structure HandleOut where
  peers : List (String × Peer)
  found : Option Peer
  replyDelay : Option Nat
deriving DecidableEq

/-- `Discovery.handleMessage` on an already-parsed datagram: drop own id,
upsert the registry entry with lastSeen refreshed to `Date.now()` (the
`now` argument), and — only inside the `isNewPeer` branch — emit peer-found
and, for a query, schedule the reply announce after `Math.random() * 1000`
milliseconds (the `jitter` argument). -/
def Discovery.handleMessage (myId : String) (st : List (String × Peer))
    (data : DiscoveryMessage) (now : Nat) (jitter : Nat) : HandleOut :=
  if data.id = myId then ⟨st, none, none⟩
  else
    let peer : Peer := ⟨data.id, data.username, data.ip, data.port, data.publicKey, now⟩
    let isNewPeer : Bool := ! containsKey data.id st
    if isNewPeer then
      ⟨setEntry data.id peer st, some peer,
        if data.type = .query then some jitter else none⟩
    else
      ⟨setEntry data.id peer st, none, none⟩

def c4Peer : Peer := ⟨"p1", "alice", "10.0.0.2", 9876, "k", 100⟩

def c4Msg : DiscoveryMessage := ⟨.query, "p1", "alice", "10.0.0.2", 9876, "k", 200⟩

/-- Claim C4 counterexample: a query datagram from an id that is already in
the registry schedules no reply announce — the reply `setTimeout` sits
inside the `isNewPeer` branch, so "regardless of whether the sender id was
already known" fails. -/
theorem c4_counterexample :
    c4Msg.type = .query ∧ c4Msg.id ≠ "me"
    ∧ (Discovery.handleMessage "me" [("p1", c4Peer)] c4Msg 200 500).replyDelay = none
    ∧ containsKey c4Msg.id [("p1", c4Peer)] = true := by
  refine ⟨rfl, by decide, rfl, rfl⟩

/-- Claim C4 (amended): for a datagram whose id differs from the process's
own id, the registry entry is upserted with lastSeen refreshed to now,
peer-found is emitted iff the id was not previously present, and a reply
announce is scheduled (after a jitter below 1000 ms) iff the id was not
previously present AND the datagram is a query. -/
theorem c4_upsert_found_gated_reply (myId : String) (st : List (String × Peer))
    (data : DiscoveryMessage) (now jitter : Nat) (hid : data.id ≠ myId)
    (hj : jitter < 1000) :
    lookupEntry data.id (Discovery.handleMessage myId st data now jitter).peers =
      some ⟨data.id, data.username, data.ip, data.port, data.publicKey, now⟩
    ∧ ((Discovery.handleMessage myId st data now jitter).found.isSome ↔
        containsKey data.id st = false)
    ∧ ((Discovery.handleMessage myId st data now jitter).replyDelay =
        if containsKey data.id st = false ∧ data.type = .query then some jitter
        else none)
    ∧ (∀ d ∈ (Discovery.handleMessage myId st data now jitter).replyDelay, d < 1000) := by
  unfold Discovery.handleMessage
  rw [if_neg hid]
  cases hc : containsKey data.id st
  · cases ht : data.type <;>
      simp [hc, ht, lookupEntry_setEntry_self, hj]
  · simp [hc, lookupEntry_setEntry_self]

theorem c4_upsert_witness :
    (("p1" : String) ≠ "me" ∧ (250 : Nat) < 1000)
    ∧ lookupEntry "p1" (Discovery.handleMessage "me" [] c4Msg 200 250).peers =
        some ⟨"p1", "alice", "10.0.0.2", 9876, "k", 200⟩ :=
  ⟨⟨by decide, by decide⟩,
    (c4_upsert_found_gated_reply "me" [] c4Msg 200 250 (by decide) (by decide)).1⟩

/-- Fold `handleMessage` over a sequence of received datagrams, each with
its arrival time and drawn jitter, accumulating every peer-found emission. -/
def Discovery.runMessages (myId : String) (st : List (String × Peer)) :
    List (DiscoveryMessage × Nat × Nat) → List (String × Peer) × List Peer
  | [] => (st, [])
  | (d, now, j) :: rest =>
    let out := Discovery.handleMessage myId st d now j
    let r := Discovery.runMessages myId out.peers rest
    (r.1, out.found.toList ++ r.2)

theorem handleMessage_mem_peers (myId : String) (st : List (String × Peer))
    (data : DiscoveryMessage) (now jitter : Nat) (e : String × Peer)
    (h : e ∈ (Discovery.handleMessage myId st data now jitter).peers) :
    e ∈ st ∨ (data.id ≠ myId ∧ e.1 = data.id) := by
  unfold Discovery.handleMessage at h
  by_cases hid : data.id = myId
  · rw [if_pos hid] at h
    exact Or.inl h
  · rw [if_neg hid] at h
    simp only at h
    rcases hb : (! containsKey data.id st) with _ | _ <;> rw [hb] at h <;>
      simp only [if_true, if_false, Bool.false_eq_true] at h <;>
      rcases mem_setEntry h with hm | hm
    · exact Or.inr ⟨hid, by rw [hm]⟩
    · exact Or.inl hm
    · exact Or.inr ⟨hid, by rw [hm]⟩
    · exact Or.inl hm

theorem handleMessage_found_id (myId : String) (st : List (String × Peer))
    (data : DiscoveryMessage) (now jitter : Nat) (p : Peer)
    (h : (Discovery.handleMessage myId st data now jitter).found = some p) :
    data.id ≠ myId ∧ p.id = data.id := by
  unfold Discovery.handleMessage at h
  by_cases hid : data.id = myId
  · rw [if_pos hid] at h
    exact absurd h (by simp)
  · rw [if_neg hid] at h
    simp only at h
    rcases hb : (! containsKey data.id st) with _ | _ <;> rw [hb] at h
    · exact absurd h (by simp)
    · refine ⟨hid, ?_⟩
      simp only [if_true, Option.some_inj] at h
      rw [← h]

theorem runMessages_no_self (myId : String) (st : List (String × Peer))
    (evs : List (DiscoveryMessage × Nat × Nat)) (hst : ∀ e ∈ st, e.1 ≠ myId) :
    (∀ e ∈ (Discovery.runMessages myId st evs).1, e.1 ≠ myId)
    ∧ ∀ p ∈ (Discovery.runMessages myId st evs).2, p.id ≠ myId := by
  induction evs generalizing st with
  | nil => exact ⟨hst, by simp [Discovery.runMessages]⟩
  | cons ev rest ih =>
    obtain ⟨d, now, j⟩ := ev
    have hnext : ∀ e ∈ (Discovery.handleMessage myId st d now j).peers, e.1 ≠ myId := by
      intro e he
      rcases handleMessage_mem_peers myId st d now j e he with hm | ⟨hne, heq⟩
      · exact hst e hm
      · rw [heq]; exact hne
    have hrec := ih (Discovery.handleMessage myId st d now j).peers hnext
    constructor
    · intro e he
      exact hrec.1 e he
    · intro p hp
      simp only [Discovery.runMessages, List.mem_append] at hp
      rcases hp with hp | hp
      · rcases hf : (Discovery.handleMessage myId st d now j).found with _ | q
        · rw [hf] at hp; simp [Option.toList] at hp
        · rw [hf] at hp
          simp only [Option.toList, List.mem_singleton] at hp
          have := handleMessage_found_id myId st d now j q hf
          rw [hp, this.2]
          exact this.1
      · exact hrec.2 p hp

/-- Claim C8: starting from an empty registry, no sequence of received
datagrams (loopback copies of the process's own announces and queries
included) ever places the process's own id in its registry or emits
peer-found for it — `handleMessage` drops any datagram whose id equals
`myId` before touching the registry. -/
theorem c8_self_filter (myId : String) (evs : List (DiscoveryMessage × Nat × Nat)) :
    (∀ e ∈ (Discovery.runMessages myId [] evs).1, e.1 ≠ myId)
    ∧ ∀ p ∈ (Discovery.runMessages myId [] evs).2, p.id ≠ myId :=
  runMessages_no_self myId [] evs (by simp)

def c8Msg : DiscoveryMessage := ⟨.announce, "p1", "alice", "10.0.0.2", 9876, "k", 150⟩

theorem c8_self_filter_witness :
    ("p1", (⟨"p1", "alice", "10.0.0.2", 9876, "k", 200⟩ : Peer)) ∈
      (Discovery.runMessages "me" [] [(c8Msg, 200, 5)]).1
    ∧ ("p1" : String) ≠ "me" :=
  ⟨by decide,
    (c8_self_filter "me" [(c8Msg, 200, 5)]).1
      ("p1", ⟨"p1", "alice", "10.0.0.2", 9876, "k", 200⟩) (by decide)⟩

/-! ## Peer expiry sweep (discovery.ts startCleanup) -/

/-- The fixed expiry window: 15 seconds. -/
def peerTimeoutMs : Nat := 15000

/-- The sweep period: the cleanup interval fires every 10 seconds. -/
def cleanupIntervalMs : Nat := 10000

/-- One run of the cleanup sweep at time `now`: delete every entry with
`now - lastSeen > timeout` and emit peer-lost with its id, in iteration
order. -/
def Discovery.cleanupSweep (now : Nat) (st : List (String × Peer)) :
    List (String × Peer) × List String :=
  (st.filter (fun e => ! decide (now - e.2.lastSeen > peerTimeoutMs)),
   (st.filter (fun e => decide (now - e.2.lastSeen > peerTimeoutMs))).map Prod.fst)

def c7Peer : Peer := ⟨"p1", "alice", "10.0.0.2", 9876, "k", 0⟩

/-- Claim C7 counterexample: at the boundary `now - lastSeen = 15000` the
entry survives the sweep (the code removes only entries strictly older
than the window) and no peer-lost is emitted, yet `now - lastSeen` is not
less than the expiry window as the claim requires. -/
theorem c7_counterexample :
    (Discovery.cleanupSweep 15000 [("p1", c7Peer)]).1 = [("p1", c7Peer)]
    ∧ (Discovery.cleanupSweep 15000 [("p1", c7Peer)]).2 = []
    ∧ ¬ (15000 - c7Peer.lastSeen < peerTimeoutMs) := by
  refine ⟨rfl, rfl, by decide⟩

/-- Claim C7 (amended): every run of the cleanup sweep removes exactly the
entries with `now - lastSeen` strictly above the 15 s window, emits one
peer-lost per removed entry, and leaves only entries with
`now - lastSeen ≤ 15000` — so no entry strictly older than the expiry
window survives a sweep. -/
theorem c7_sweep_removes_expired (now : Nat) (st : List (String × Peer)) :
    (∀ e ∈ (Discovery.cleanupSweep now st).1, now - e.2.lastSeen ≤ peerTimeoutMs)
    ∧ (∀ e ∈ st, now - e.2.lastSeen > peerTimeoutMs →
        e.1 ∈ (Discovery.cleanupSweep now st).2)
    ∧ (∀ e ∈ st, now - e.2.lastSeen ≤ peerTimeoutMs →
        e ∈ (Discovery.cleanupSweep now st).1)
    ∧ (Discovery.cleanupSweep now st).1.length + (Discovery.cleanupSweep now st).2.length
        = st.length := by
  refine ⟨?_, ?_, ?_, ?_⟩
  · intro e he
    simp only [Discovery.cleanupSweep, List.mem_filter, Bool.not_eq_eq_eq_not,
      Bool.not_true, decide_eq_false_iff_not, not_lt] at he
    omega
  · intro e he hexp
    simp only [Discovery.cleanupSweep, List.mem_map]
    exact ⟨e, List.mem_filter.2 ⟨he, by simpa using hexp⟩, rfl⟩
  · intro e he hfresh
    simp only [Discovery.cleanupSweep]
    refine List.mem_filter.2 ⟨he, ?_⟩
    simp only [Bool.not_eq_eq_eq_not, Bool.not_true, decide_eq_false_iff_not, not_lt]
    omega
  · simp only [Discovery.cleanupSweep, List.length_map]
    have hsplit := List.length_eq_length_filter_add (l := st)
      (fun e => decide (now - e.2.lastSeen > peerTimeoutMs))
    simp only [] at hsplit
    omega

theorem c7_sweep_witness :
    (("p1", c7Peer) ∈ [("p1", c7Peer)] ∧ (20000 : Nat) - c7Peer.lastSeen > peerTimeoutMs)
    ∧ "p1" ∈ (Discovery.cleanupSweep 20000 [("p1", c7Peer)]).2 :=
  ⟨⟨by decide, by decide⟩,
    (c7_sweep_removes_expired 20000 [("p1", c7Peer)]).2.1 ("p1", c7Peer)
      (by decide) (by decide)⟩

/-! ## Discovery timers and stop() (discovery.ts) -/

/-- Timers the Discovery instance has created and not yet cancelled or
fired: the two tracked interval handles and the untracked jittered reply
timeouts. -/
structure DiscTimers where
  announceSet : Bool
  cleanupSet : Bool
  pendingReplies : List Nat
deriving DecidableEq

/-- Timer state right after `start()`: announce and cleanup intervals
registered, no reply timeout pending. -/
def Discovery.startTimers : DiscTimers := ⟨true, true, []⟩

/-- Registers the jittered reply `setTimeout(() => this.announce(), ...)`
created by `handleMessage`; the handle is not stored in any field. -/
def Discovery.scheduleReply (t : DiscTimers) (out : HandleOut) : DiscTimers :=
  match out.replyDelay with
  | some d => ⟨t.announceSet, t.cleanupSet, d :: t.pendingReplies⟩
  | none => t

/-- `Discovery.stop()`: clearInterval on announceInterval and
cleanupInterval, drop multicast membership, close the socket.  No other
timer handle is referenced, so pending reply timeouts are untouched. -/
def Discovery.stop (t : DiscTimers) : DiscTimers :=
  ⟨false, false, t.pendingReplies⟩

def c9Msg : DiscoveryMessage := ⟨.query, "p1", "alice", "10.0.0.2", 9876, "k", 5⟩

/-- Claim C9: after a query from a previously-unknown peer schedules a
jittered reply announce, calling `stop()` cancels both intervals but the
pending reply timeout survives — `stop()` does not cancel every
Discovery-owned timer. -/
theorem c9_stop_leaves_pending_reply :
    (Discovery.stop (Discovery.scheduleReply Discovery.startTimers
        (Discovery.handleMessage "me" [] c9Msg 5 500))).announceSet = false
    ∧ (Discovery.stop (Discovery.scheduleReply Discovery.startTimers
        (Discovery.handleMessage "me" [] c9Msg 5 500))).cleanupSet = false
    ∧ (Discovery.stop (Discovery.scheduleReply Discovery.startTimers
        (Discovery.handleMessage "me" [] c9Msg 5 500))).pendingReplies = [500] := by
  refine ⟨rfl, rfl, rfl⟩

/-! ## Outbound connection manager (client.ts) -/

/-- The reconnect attempt cap `maxReconnectAttempts = 5`. -/
def maxReconnectAttempts : Nat := 5

/-- The backoff base delay `reconnectDelay = 2000` ms. -/
def reconnectDelay : Nat := 2000

/-- `ChatClient.scheduleReconnect(peer, attempt)`: returns the delay of the
timer it registers, or none when the attempt cap suppresses it. -/
def ChatClient.scheduleReconnect (attempt : Nat) : Option Nat :=
  if attempt ≥ maxReconnectAttempts then none
  else some (reconnectDelay * 2 ^ attempt)

/-- The `attempt` argument every reachable caller passes.  The `onclose`
handler and the catch block of `connectToPeer` both invoke
`this.scheduleReconnect(peer)`, leaving `attempt` at its default of 0.
The one call site passing `attempt + 1` sits in the rejection handler of
`connectToPeer(peer).catch(...)`, and `connectToPeer`'s entire body is
wrapped in try/catch with a non-rethrowing handler, so its promise never
rejects and that call site is unreachable. -/
def oncloseAttemptArg : Nat := 0

/-- Delays scheduled across `k` consecutive connection failures that
surface through the socket close event (the failure mode of an
unreachable peer): each close re-enters `scheduleReconnect` with the
default attempt value. -/
def closeLoopDelays : Nat → List Nat
  | 0 => []
  | k + 1 =>
    match ChatClient.scheduleReconnect oncloseAttemptArg with
    | some d => d :: closeLoopDelays k
    | none => []

/-- Claim C2: for an unreachable peer the reconnect loop never reaches the
5-attempt cap and never backs off — after any number k of failed
attempts, the schedule is k delays of a constant 2000 ms, not the claimed
2s/4s/8s/16s/32s-then-stop.  (The attempt counter resets to 0 on every
close, so `scheduleReconnect` always sees attempt 0.) -/
theorem c2_close_loop_constant_and_unbounded (k : Nat) :
    closeLoopDelays k = List.replicate k 2000
    ∧ ChatClient.scheduleReconnect oncloseAttemptArg = some 2000 := by
  refine ⟨?_, rfl⟩
  induction k with
  | zero => rfl
  | succ k ih =>
    simp only [closeLoopDelays, ChatClient.scheduleReconnect, oncloseAttemptArg,
      maxReconnectAttempts, reconnectDelay]
    rw [if_neg (by omega)]
    simp [ih, List.replicate]

/-- A WebSocket held in the client's connections map: its readyState and
whether a send on it succeeds (rather than throwing). -/
structure CWs where
  readyState : Nat
  sendOk : Bool
deriving DecidableEq

/-- WebSocket.OPEN. -/
def wsStateOpen : Nat := 1

/-- Observable outcome of one `broadcast` call: ids sent to (in peer list
order), per-send failure logs (from the catch inside the loop), and
whether the final no-active-connections warning fired. -/
structure BroadcastOut where
  sentTo : List String
  errLogs : List String
  warnNoActive : Bool
deriving DecidableEq

/-- The for-loop of `ChatClient.broadcast`: look each peer up in the
connections map, send only when the socket exists and is OPEN, catch and
log a send failure, and otherwise skip the peer silently. -/
def ChatClient.broadcastLoop (conns : List (String × CWs)) :
    List Peer → List String × List String
  | [] => ([], [])
  | p :: ps =>
    let r := ChatClient.broadcastLoop conns ps
    match lookupEntry p.id conns with
    | some ws =>
      if ws.readyState = wsStateOpen then
        if ws.sendOk then (p.id :: r.1, r.2) else (r.1, p.username :: r.2)
      else r
    | none => r

/-- `ChatClient.broadcast(message, peers)`: run the loop, then warn once if
nothing was delivered although peers were known. -/
def ChatClient.broadcast (conns : List (String × CWs)) (message : String)
    (peers : List Peer) : BroadcastOut :=
  let r := ChatClient.broadcastLoop conns peers
  ⟨r.1, r.2, decide (r.1.length = 0 ∧ peers.length > 0)⟩

def c6PeerA : Peer := ⟨"a", "alice", "10.0.0.2", 9876, "ka", 0⟩

def c6PeerB : Peer := ⟨"b", "bob", "10.0.0.3", 9876, "kb", 0⟩

def c6PeerC : Peer := ⟨"c", "carol", "10.0.0.4", 9876, "kc", 0⟩

def c6Conns : List (String × CWs) := [("a", ⟨1, true⟩), ("b", ⟨1, true⟩)]

/-- Claim C6 counterexample: with three known peers of which two have open
sessions, `broadcast` performs exactly the two sends but logs nothing at
all for the sessionless peer — the loop has no skip log, and the single
warning fires only when no send succeeded, so "logs a skip for the peer
lacking one" is false. -/
theorem c6_counterexample :
    ChatClient.broadcast c6Conns "hi" [c6PeerA, c6PeerB, c6PeerC] =
      ⟨["a", "b"], [], false⟩ := by
  refine rfl

/-- Claim C6 (amended): when exactly the first two of three known peers
have open sessions whose sends succeed, `broadcast` performs exactly two
outbound sends, one per open session, logs nothing (no per-peer skip
entry — the only warning fires when zero sends succeed), and, being a
total function that catches each send failure, never raises. -/
theorem c6_broadcast_two_of_three (conns : List (String × CWs)) (message : String)
    (p1 p2 p3 : Peer) (w1 w2 : CWs)
    (h1 : lookupEntry p1.id conns = some w1) (h1o : w1.readyState = wsStateOpen)
    (h1s : w1.sendOk = true)
    (h2 : lookupEntry p2.id conns = some w2) (h2o : w2.readyState = wsStateOpen)
    (h2s : w2.sendOk = true)
    (h3 : lookupEntry p3.id conns = none) :
    ChatClient.broadcast conns message [p1, p2, p3] = ⟨[p1.id, p2.id], [], false⟩ := by
  simp only [ChatClient.broadcast, ChatClient.broadcastLoop]
  rw [h1, h2, h3]
  simp [h1o, h2o, h1s, h2s]

theorem c6_broadcast_witness :
    (lookupEntry c6PeerA.id c6Conns = some ⟨1, true⟩
      ∧ lookupEntry c6PeerC.id c6Conns = none)
    ∧ ChatClient.broadcast c6Conns "hello" [c6PeerA, c6PeerB, c6PeerC] =
        ⟨["a", "b"], [], false⟩ :=
  ⟨⟨rfl, rfl⟩,
    c6_broadcast_two_of_three c6Conns "hello" c6PeerA c6PeerB c6PeerC ⟨1, true⟩ ⟨1, true⟩
      rfl rfl rfl rfl rfl rfl rfl⟩

/-! ## Inbound listener (server.ts) -/

/-- Outcome of one `Bun.serve` bind attempt at a given port. -/
inductive BindOutcome
  | ok
  | addrInUse
  | otherErr
deriving DecidableEq

/-- How `ChatServer.start()` terminates. -/
inductive StartResult
  | bound (port : Nat)
  | threw (port : Nat)
  | returnedNoServer
deriving DecidableEq

/-- The bind retry cap `maxAttempts = 10`. -/
def serverMaxAttempts : Nat := 10

/-- The while loop of `start()`: try the current port; on success return
with the server bound; on EADDRINUSE increment the port and the attempt
counter; rethrow any other error.  When the attempt budget is exhausted
the loop exits and `start()` returns normally with no server bound. -/
def ChatServer.startAux (res : Nat → BindOutcome) : Nat → Nat → StartResult
  | _, 0 => .returnedNoServer
  | port, n + 1 =>
    match res port with
    | .ok => .bound port
    | .addrInUse => ChatServer.startAux res (port + 1) n
    | .otherErr => .threw port

def ChatServer.start (res : Nat → BindOutcome) (port : Nat) : StartResult :=
  ChatServer.startAux res port serverMaxAttempts

theorem startAux_all_inUse (res : Nat → BindOutcome) (n : Nat) :
    ∀ port, (∀ i, i < n → res (port + i) = .addrInUse) →
      ChatServer.startAux res port n = .returnedNoServer := by
  induction n with
  | zero => intro port _; rfl
  | succ n ih =>
    intro port h
    have h0 : res port = .addrInUse := by
      have := h 0 (Nat.succ_pos n)
      simpa using this
    simp only [ChatServer.startAux, h0]
    exact ih (port + 1) (fun i hi => by
      have := h (i + 1) (by omega)
      rw [show port + (i + 1) = port + 1 + i by omega] at this
      exact this)

/-- Claim C5: when the preferred port and its nine successors are all in
use, `start()` exhausts the cap and then returns normally — no error is
thrown and no server is bound, rather than the fatal startup failure the
claim requires. -/
theorem c5_exhausted_cap_returns_no_server (res : Nat → BindOutcome) (port : Nat)
    (h : ∀ i, i < serverMaxAttempts → res (port + i) = .addrInUse) :
    ChatServer.start res port = .returnedNoServer
    ∧ ∀ q, ChatServer.start res port ≠ .threw q := by
  have hmain : ChatServer.start res port = .returnedNoServer :=
    startAux_all_inUse res serverMaxAttempts port h
  exact ⟨hmain, fun q hq => by rw [hmain] at hq; exact StartResult.noConfusion hq⟩

theorem c5_exhausted_cap_witness :
    (∀ i, i < serverMaxAttempts →
      (fun _ => BindOutcome.addrInUse) (9876 + i) = BindOutcome.addrInUse)
    ∧ ChatServer.start (fun _ => BindOutcome.addrInUse) 9876 =
        StartResult.returnedNoServer :=
  ⟨fun i _ => rfl,
    (c5_exhausted_cap_returns_no_server (fun _ => BindOutcome.addrInUse) 9876
      (fun i _ => rfl)).1⟩

/-- An inbound server WebSocket with the handshake data Bun attaches. -/
structure SrvWs where
  sockId : Nat
  peerId : String
  username : String
deriving DecidableEq

/-- The statements `handleOpen` executes, in order. -/
inductive SrvAction
  | setConn (peerId : String)
  | sendWelcome
  | emitPeerConnected
  | closeSock
deriving DecidableEq

/-- Result of `handleOpen`: the updated connections map and the actions
performed. -/
structure OpenOut where
  conns : List (String × SrvWs)
  actions : List SrvAction
deriving DecidableEq

/-- `ChatServer.handleOpen`: register the new socket under its handshake
peerId via `Map.set` (an unconditional overwrite), send the welcome
payload on the new socket, and emit peer-connected.  No statement closes
or rejects a previously registered socket. -/
def ChatServer.handleOpen (conns : List (String × SrvWs)) (ws : SrvWs) : OpenOut :=
  ⟨setEntry ws.peerId ws conns,
   [SrvAction.setConn ws.peerId, SrvAction.sendWelcome, SrvAction.emitPeerConnected]⟩

/-- `ChatServer.handleClose`: drop the map entry registered under the
closing socket's peerId. -/
def ChatServer.handleClose (conns : List (String × SrvWs)) (ws : SrvWs) :
    List (String × SrvWs) :=
  conns.filter (fun e => ! decide (e.1 = ws.peerId))

/-- Claim C10: even when a session is already registered under the same
peer id, `handleOpen` maps that id to the newly opened socket — the old
entry is overwritten without any close action — so the map entry is
always the most recently opened socket. -/
theorem c10_handleOpen_replaces (conns : List (String × SrvWs)) (ws old : SrvWs)
    (h : lookupEntry ws.peerId conns = some old) :
    lookupEntry ws.peerId (ChatServer.handleOpen conns ws).conns = some ws
    ∧ SrvAction.closeSock ∉ (ChatServer.handleOpen conns ws).actions := by
  refine ⟨lookupEntry_setEntry_self ws.peerId ws conns, ?_⟩
  intro hmem
  simp [ChatServer.handleOpen] at hmem

def c10Old : SrvWs := ⟨1, "p1", "alice"⟩

def c10New : SrvWs := ⟨2, "p1", "alice"⟩

theorem c10_handleOpen_witness :
    lookupEntry c10New.peerId [("p1", c10Old)] = some c10Old
    ∧ lookupEntry c10New.peerId
        (ChatServer.handleOpen [("p1", c10Old)] c10New).conns = some c10New :=
  ⟨rfl, (c10_handleOpen_replaces [("p1", c10Old)] c10New c10Old rfl).1⟩

end TChat
